import Mathlib

/-!
Verification of the xray-vision repository (matplotlib/Qt visualization
widgets) against its natural-language specification.

The Python sources embedded here:
  - `bubblegum/backend/mpl/cross_section_2d.py`:
    `fullrange_limit_factory`, `absolute_limit_factory`,
    `CrossSection` (`move_cb`, `update_image`, `update_artists`),
    `CrossSection2DView.__init__`
  - `vistools/qt_widgets/displaydict.py`:
    `RecursiveTreeWidget.fill_item`, `RecursiveTreeWidget.fill_widget`
  - `qt_apps/plot1D.py`:
    `OneDimStackViewer` (`add_line`, `replot`, `find_range`)

Images (2D numpy arrays) are modelled as lists of rows of integers;
numpy reductions (`np.min` / `np.max`) over a 2D array reduce over the
flattened element list and fail on an empty array, modelled with
`Option`.
-/

namespace XrayVision

/-- A 2D image: a list of rows, each row a list of integer pixel values.
A genuine numpy array is rectangular; rectangularity is stated as a
hypothesis where a claim needs it. -/
abbrev Image := List (List Int)

/-- The numpy `.shape` of a 2D array: (number of rows, number of columns). -/
def Image.shape (im : Image) : Nat × Nat := (im.length, (im.headD []).length)

/-- Row `r` of the image, i.e. `imdata[r, :]`. -/
def Image.rowAt (im : Image) (r : Nat) : List Int := im.getD r []

/-- Column `c` of the image, i.e. `imdata[:, c]`. -/
def Image.colAt (im : Image) (c : Nat) : List Int :=
  im.map (fun row => row.getD c 0)

/-- Model of `np.min` over a 1D element list: `none` on an empty array
(numpy raises `ValueError` there), otherwise the least element. -/
def npMin {α : Type} [LinearOrder α] : List α → Option α
  | [] => none
  | x :: xs => some (xs.foldl min x)

/-- Model of `np.max` over a 1D element list, `none` on an empty array. -/
def npMax {α : Type} [LinearOrder α] : List α → Option α
  | [] => none
  | x :: xs => some (xs.foldl max x)

/-- Source function `fullrange_limit_factory` from
`cross_section_2d.py`: `limit_args` is
ignored and the returned closure `_full_range` maps an image to
`(np.min(im), np.max(im))`. -/
def fullrange_limit_factory (_limit_args : Option (Int × Int)) :
    Image → Option Int × Option Int :=
  fun im => (npMin im.flatten, npMax im.flatten)

/-- Source function `absolute_limit_factory` from `cross_section_2d.py`:
the returned
closure `_absolute_limit` ignores the image and returns `limit_args`. -/
def absolute_limit_factory {α : Type} (limit_args : α) : Image → α :=
  fun _im => limit_args

theorem foldl_min_le_init {α : Type} [LinearOrder α] (xs : List α) (x : α) : xs.foldl min x ≤ x := by
  induction xs generalizing x with
  | nil => exact le_refl x
  | cons a as ih =>
      exact le_trans (ih (min x a)) (min_le_left x a)

theorem foldl_min_le_mem {α : Type} [LinearOrder α] (xs : List α) (x v : α) (hv : v ∈ xs) :
    xs.foldl min x ≤ v := by
  induction xs generalizing x with
  | nil => cases hv
  | cons a as ih =>
      rcases List.mem_cons.mp hv with h | h
      · subst h
        exact le_trans (foldl_min_le_init as (min x v)) (min_le_right x v)
      · exact ih (min x a) h

theorem foldl_min_mem {α : Type} [LinearOrder α] (xs : List α) (x : α) :
    xs.foldl min x = x ∨ xs.foldl min x ∈ xs := by
  induction xs generalizing x with
  | nil => exact Or.inl rfl
  | cons a as ih =>
      rcases ih (min x a) with h | h
      · rcases min_choice x a with hm | hm
        · exact Or.inl (by rw [List.foldl_cons, h, hm])
        · exact Or.inr (by rw [List.foldl_cons, h, hm]; exact List.mem_cons_self a as)
      · exact Or.inr (List.mem_cons_of_mem a h)

theorem foldl_max_init_le {α : Type} [LinearOrder α] (xs : List α) (x : α) : x ≤ xs.foldl max x := by
  induction xs generalizing x with
  | nil => exact le_refl x
  | cons a as ih =>
      exact le_trans (le_max_left x a) (ih (max x a))

theorem foldl_max_mem_le {α : Type} [LinearOrder α] (xs : List α) (x v : α) (hv : v ∈ xs) :
    v ≤ xs.foldl max x := by
  induction xs generalizing x with
  | nil => cases hv
  | cons a as ih =>
      rcases List.mem_cons.mp hv with h | h
      · subst h
        exact le_trans (le_max_right x v) (foldl_max_init_le as (max x v))
      · exact ih (max x a) h

theorem foldl_max_mem {α : Type} [LinearOrder α] (xs : List α) (x : α) :
    xs.foldl max x = x ∨ xs.foldl max x ∈ xs := by
  induction xs generalizing x with
  | nil => exact Or.inl rfl
  | cons a as ih =>
      rcases ih (max x a) with h | h
      · rcases max_choice x a with hm | hm
        · exact Or.inl (by rw [List.foldl_cons, h, hm])
        · exact Or.inr (by rw [List.foldl_cons, h, hm]; exact List.mem_cons_self a as)
      · exact Or.inr (List.mem_cons_of_mem a h)

/-- Claim C2: for every image `im` (with at least one element, since
`np.min`/`np.max` reject empty arrays), the closure returned by
`fullrange_limit_factory` returns the pair (minimum element of `im`,
maximum element of `im`): both components are elements of the image and
they bound every element below and above respectively. -/
theorem fullrange_limit_covers_range (limit_args : Option (Int × Int))
    (im : Image) (h : im.flatten ≠ []) :
    ∃ lo hi, fullrange_limit_factory limit_args im = (some lo, some hi) ∧
      lo ∈ im.flatten ∧ hi ∈ im.flatten ∧
      ∀ v ∈ im.flatten, lo ≤ v ∧ v ≤ hi := by
  rcases hx : im.flatten with _ | ⟨a, as⟩
  · exact absurd hx h
  · refine ⟨as.foldl min a, as.foldl max a, ?_, ?_, ?_, ?_⟩
    · simp [fullrange_limit_factory, npMin, npMax, hx]
    · rcases foldl_min_mem as a with hm | hm
      · rw [hm]; exact List.mem_cons_self a as
      · exact List.mem_cons_of_mem a hm
    · rcases foldl_max_mem as a with hm | hm
      · rw [hm]; exact List.mem_cons_self a as
      · exact List.mem_cons_of_mem a hm
    · intro v hv
      rcases List.mem_cons.mp hv with hva | hva
      · subst hva
        exact ⟨foldl_min_le_init as v, foldl_max_init_le as v⟩
      · exact ⟨foldl_min_le_mem as a v hva, foldl_max_mem_le as a v hva⟩

/-- Witness for C2 at the concrete image `[[3, 1], [2, 5]]`. -/
theorem fullrange_limit_covers_range_witness :
    ∃ lo hi,
      fullrange_limit_factory none [[(3 : Int), 1], [2, 5]] = (some lo, some hi) ∧
      lo ∈ ([[(3 : Int), 1], [2, 5]] : Image).flatten ∧
      hi ∈ ([[(3 : Int), 1], [2, 5]] : Image).flatten ∧
      ∀ v ∈ ([[(3 : Int), 1], [2, 5]] : Image).flatten, lo ≤ v ∧ v ≤ hi :=
  fullrange_limit_covers_range none [[(3 : Int), 1], [2, 5]] (by decide)

/-- Claim C3: the closure returned by `absolute_limit_factory limit_args`
returns `limit_args` unchanged on every image, hence two calls with the
same `limit_args` and different images return the same value. -/
theorem absolute_limit_ignores_image {α : Type} (limit_args : α)
    (im : Image) :
    absolute_limit_factory limit_args im = limit_args ∧
    ∀ im2 : Image,
      absolute_limit_factory limit_args im = absolute_limit_factory limit_args im2 :=
  ⟨rfl, fun _ => rfl⟩

/-- Python `int()` applied to a rational: truncation toward zero
(floor for non-negative values, ceiling for negative ones). -/
def pyInt (q : ℚ) : Int := if 0 ≤ q then ⌊q⌋ else ⌈q⌉

/-- A matplotlib `Line2D` artist: the `move_cb` callback reads and writes
its x-data, y-data and visibility. -/
structure CSLine where
  xdata : List Int
  ydata : List Int
  visible : Bool
deriving DecidableEq, Repr

/-- A `motion_notify_event`: whether it is inside the main image axes
(`event.inaxes is self._im_ax`) and its data coordinates, which
matplotlib reports as `None` outside the data range. -/
structure MotionEvent where
  inMainAxes : Bool
  xdata : Option ℚ
  ydata : Option ℚ
deriving DecidableEq, Repr

/-- The state of a `CrossSection` widget touched by `move_cb`,
`update_image` and `update_artists`: the flags, the stored image, the
current limit function, the last-drawn cell, the two profile line
artists, and the artist properties those methods assign (color limits,
parasite axes limits, displayed image data).  A stored image is assumed
present (`init_artist_data` has run), as every claim here presupposes. -/
structure CrossSection where
  active : Bool
  dirty : Bool
  cb_dirty : Bool
  imdata : Image
  limit_func : Image → Int × Int
  row : Option Int
  col : Option Int
  ln_h : CSLine
  ln_v : CSLine
  im_clim : Int × Int
  im_data : Image
  ax_v_xlim : Int × Int
  ax_h_ylim : Int × Int

/-- Source method `CrossSection.move_cb` from `cross_section_2d.py`.
Returns the
updated widget state; the canvas `restore_region`/`draw_artist`/`blit`
calls in the loop body are pure rendering and carry no state. -/
def CrossSection.move_cb (s : CrossSection) (event : MotionEvent) :
    CrossSection :=
  if !s.active then s
  else if !event.inMainAxes then s
  else
    let numrows := s.imdata.shape.1
    let numcols := s.imdata.shape.2
    match event.xdata, event.ydata with
    | some x, some y =>
      let s1 : CrossSection :=
        { s with ln_h := { s.ln_h with visible := true },
                 ln_v := { s.ln_v with visible := true } }
      let col : Int := pyInt (x + 1/2)
      let row : Int := pyInt (y + 1/2)
      if some row ≠ s1.row ∨ some col ≠ s1.col then
        if 0 ≤ col ∧ col < (numcols : Int) ∧ 0 ≤ row ∧ row < (numrows : Int) then
          { s1 with
              col := some col,
              row := some row,
              ln_h := { s1.ln_h with ydata := s1.imdata.rowAt row.toNat },
              ln_v := { s1.ln_v with xdata := s1.imdata.colAt col.toNat } }
        else s1
      else s1
    | _, _ => s

/-- Source method `CrossSection.update_image`: raises `ValueError` when
the new image
shape differs from the stored one, otherwise stores the new image and
marks the widget dirty. -/
def CrossSection.update_image (s : CrossSection) (new_image : Image) :
    Except String CrossSection :=
  if s.imdata.shape ≠ new_image.shape then
    .error ("New image shape does not match current image shape.  Please use init_artists to change the size of the image shown")
  else
    .ok { s with imdata := new_image, dirty := true }

/-- The state after calling `update_image` on a live object: a raised
exception propagates and leaves the object unchanged. -/
def CrossSection.runUpdateImage (s : CrossSection) (new_image : Image) :
    CrossSection :=
  match s.update_image new_image with
  | .ok s2 => s2
  | .error _ => s

/-- Source method `CrossSection.update_artists`: short-circuits unless
dirty, else
applies the limit function to the stored image, pushes the resulting
pair into the image color limits and the two parasite axes limits
(the vertical one reversed), sets the image artist data, and clears
both dirty flags. -/
def CrossSection.update_artists (s : CrossSection) : CrossSection :=
  if !(s.dirty || s.cb_dirty) then s
  else
    let vlim := s.limit_func s.imdata
    { s with
        im_clim := vlim,
        ax_v_xlim := (vlim.2, vlim.1),
        ax_h_ylim := vlim,
        im_data := s.imdata,
        dirty := false,
        cb_dirty := false }

/-- Keyword-argument guard of `CrossSection2DView.__init__`: the first
statement of the constructor raises when `limit_args` is among the
keyword arguments; otherwise initialization proceeds.  Modelled on the
keyword-name set alone, the rest of construction abstracted as `ok`. -/
def crossSection2DView_init (kwargs : List String) : Except String Unit :=
  if ("limit_args") ∈ kwargs then
    .error ("changed API, dont use limit_args anymore, use closures")
  else
    .ok ()

/-- Claim C4: `update_image` raises `ValueError` iff the new image shape
differs from the stored shape; on a raise the object is unchanged, and
otherwise the stored image becomes the new image and the dirty flag is
set. -/
theorem update_image_shape_guard (s : CrossSection) (im : Image) :
    ((∃ e, s.update_image im = .error e) ↔ s.imdata.shape ≠ im.shape) ∧
    (s.imdata.shape ≠ im.shape → s.runUpdateImage im = s) ∧
    (s.imdata.shape = im.shape →
      (s.runUpdateImage im).imdata = im ∧
      (s.runUpdateImage im).dirty = true) := by
  by_cases h : s.imdata.shape = im.shape
  · refine ⟨?_, fun hne => absurd h hne, fun _ => ?_⟩
    · constructor
      · rintro ⟨e, he⟩
        rw [CrossSection.update_image, if_neg (by simpa using h)] at he
        cases he
      · intro hne; exact absurd h hne
    · simp [CrossSection.runUpdateImage, CrossSection.update_image, h]
  · refine ⟨⟨fun _ => h, fun _ => ?_⟩, fun _ => ?_, fun he => absurd he h⟩
    · exact ⟨_, by rw [CrossSection.update_image, if_pos h]⟩
    · simp [CrossSection.runUpdateImage, CrossSection.update_image, h]

/-- Concrete `CrossSection` state used by witnesses and the C1
counterexample: a 2×2 image, inactive cursor logic disabled or enabled
per copy, nothing drawn yet. -/
def csBase : CrossSection :=
  { active := true
    dirty := true
    cb_dirty := true
    imdata := [[1, 2], [3, 4]]
    limit_func := absolute_limit_factory (0, 1)
    row := none
    col := none
    ln_h := { xdata := [], ydata := [], visible := false }
    ln_v := { xdata := [], ydata := [], visible := false }
    im_clim := (0, 0)
    im_data := []
    ax_v_xlim := (0, 0)
    ax_h_ylim := (0, 0) }

/-- Witness for C4: updating the 2×2 base state with another 2×2 image
succeeds and stores it. -/
theorem update_image_shape_guard_witness :
    (csBase.runUpdateImage [[5, 6], [7, 8]]).imdata = [[5, 6], [7, 8]] ∧
    (csBase.runUpdateImage [[5, 6], [7, 8]]).dirty = true :=
  (update_image_shape_guard csBase [[5, 6], [7, 8]]).2.2 (by decide)

/-- Claim C5: `update_artists` is a no-op when neither dirty flag is
set; when either is set it applies the current limit function to the
stored image and pushes the result into the color limits, the vertical
parasite axes x-limits (reversed) and the horizontal parasite axes
y-limits; both dirty flags are false after every call. -/
theorem update_artists_blit (s : CrossSection) :
    (s.dirty = false ∧ s.cb_dirty = false → s.update_artists = s) ∧
    (s.dirty = true ∨ s.cb_dirty = true →
      s.update_artists.im_clim = s.limit_func s.imdata ∧
      s.update_artists.ax_v_xlim =
        ((s.limit_func s.imdata).2, (s.limit_func s.imdata).1) ∧
      s.update_artists.ax_h_ylim = s.limit_func s.imdata) ∧
    (s.dirty = false ∧ s.cb_dirty = false → s.update_artists.dirty = false ∧
      s.update_artists.cb_dirty = false) ∧
    (s.dirty = true ∨ s.cb_dirty = true → s.update_artists.dirty = false ∧
      s.update_artists.cb_dirty = false) := by
  by_cases hd : s.dirty = true
  · refine ⟨?_, fun _ => ?_, ?_, fun _ => ?_⟩
    · rintro ⟨h1, _⟩; rw [h1] at hd; cases hd
    · simp [CrossSection.update_artists, hd]
    · rintro ⟨h1, _⟩; rw [h1] at hd; cases hd
    · simp [CrossSection.update_artists, hd]
  · have hd0 : s.dirty = false := by
      cases h : s.dirty
      · rfl
      · exact absurd h hd
    by_cases hc : s.cb_dirty = true
    · refine ⟨?_, fun _ => ?_, ?_, fun _ => ?_⟩
      · rintro ⟨_, h2⟩; rw [h2] at hc; cases hc
      · simp [CrossSection.update_artists, hc]
      · rintro ⟨_, h2⟩; rw [h2] at hc; cases hc
      · simp [CrossSection.update_artists, hc]
    · have hc0 : s.cb_dirty = false := by
        cases h : s.cb_dirty
        · rfl
        · exact absurd h hc
      have hid : s.update_artists = s := by
        simp [CrossSection.update_artists, hd0, hc0]
      refine ⟨fun _ => hid, ?_, fun _ => ⟨by rw [hid, hd0], by rw [hid, hc0]⟩, ?_⟩
      · rintro (h | h)
        · rw [h] at hd0; cases hd0
        · rw [h] at hc0; cases hc0
      · rintro (h | h)
        · rw [h] at hd0; cases hd0
        · rw [h] at hc0; cases hc0

/-- Witness for C5: on the dirty base state the limit function
`absolute_limit_factory (0, 1)` lands in the color limits and the
parasite axes limits. -/
theorem update_artists_blit_witness :
    csBase.update_artists.im_clim = csBase.limit_func csBase.imdata ∧
    csBase.update_artists.ax_v_xlim =
      ((csBase.limit_func csBase.imdata).2, (csBase.limit_func csBase.imdata).1) ∧
    csBase.update_artists.ax_h_ylim = csBase.limit_func csBase.imdata :=
  (update_artists_blit csBase).2.1 (Or.inl rfl)

/-- Claim C9: `CrossSection2DView.__init__` raises (its first statement)
exactly when `limit_args` appears among the keyword arguments, and
construction succeeds exactly when it is absent. -/
theorem cross_section_view_rejects_limit_args (kwargs : List String) :
    ((∃ e, crossSection2DView_init kwargs = .error e) ↔ "limit_args" ∈ kwargs) ∧
    (crossSection2DView_init kwargs = .ok () ↔ "limit_args" ∉ kwargs) := by
  by_cases h : "limit_args" ∈ kwargs
  · constructor
    · exact ⟨fun _ => h, fun _ => ⟨_, by rw [crossSection2DView_init, if_pos h]⟩⟩
    · constructor
      · intro hok
        rw [crossSection2DView_init, if_pos h] at hok
        cases hok
      · intro hna; exact absurd h hna
  · constructor
    · constructor
      · rintro ⟨e, he⟩
        rw [crossSection2DView_init, if_neg h] at he
        cases he
      · intro hmem; exact absurd hmem h
    · exact ⟨fun _ => h, fun _ => by rw [crossSection2DView_init, if_neg h]⟩

/-- Witness for C9: passing `limit_args` raises; omitting it succeeds. -/
theorem cross_section_view_rejects_limit_args_witness :
    (∃ e, crossSection2DView_init ["cmap", "limit_args"] = .error e) ∧
    crossSection2DView_init ["cmap"] = .ok () :=
  ⟨(cross_section_view_rejects_limit_args ["cmap", "limit_args"]).1.mpr (by decide),
   (cross_section_view_rejects_limit_args ["cmap"]).2.mpr (by decide)⟩

/-- An inactive copy of the base state: reachable in the widget because
`click_cb` toggles `self.active` on every click inside the main axes. -/
def csInactive : CrossSection := { csBase with active := false }

/-- A motion event at data coordinates (0, 0) inside the main axes: its
cursor cell is row 0, column 0 of the image. -/
def evCenter : MotionEvent :=
  { inMainAxes := true, xdata := some 0, ydata := some 0 }

/-- Counterexample to C1 as stated: in an inactive `CrossSection`
(`self._active = False`, reachable by one click), a motion event inside
the main axes whose cursor cell (0,0) is in bounds and differs from the
last-drawn cell does NOT update the horizontal profile line y-data;
`move_cb` returns at its first guard. -/
theorem move_cb_inactive_counterexample :
    csInactive.active = false ∧
    evCenter.inMainAxes = true ∧
    evCenter.xdata = some 0 ∧
    evCenter.ydata = some 0 ∧
    (some (pyInt ((0 : ℚ) + 1 / 2)) ≠ csInactive.row ∨
      some (pyInt ((0 : ℚ) + 1 / 2)) ≠ csInactive.col) ∧
    (0 ≤ pyInt ((0 : ℚ) + 1 / 2) ∧
      pyInt ((0 : ℚ) + 1 / 2) < (csInactive.imdata.shape.2 : Int) ∧
      0 ≤ pyInt ((0 : ℚ) + 1 / 2) ∧
      pyInt ((0 : ℚ) + 1 / 2) < (csInactive.imdata.shape.1 : Int)) ∧
    (csInactive.move_cb evCenter).ln_h.ydata ≠
      csInactive.imdata.rowAt (pyInt ((0 : ℚ) + 1 / 2)).toNat := by
  have hp : pyInt ((0 : ℚ) + 1 / 2) = 0 := by norm_num [pyInt]
  have hmv : csInactive.move_cb evCenter = csInactive := rfl
  refine ⟨rfl, rfl, rfl, rfl, ?_, ?_, ?_⟩
  · rw [hp]; exact Or.inl (by decide)
  · rw [hp]; exact ⟨le_refl 0, by decide, le_refl 0, by decide⟩
  · rw [hmv, hp]; decide

/-- Claim C1 (amended: the update additionally requires the widget to be
active, `self._active = True`; a click inside the main axes toggles it).
For an active `CrossSection` and a motion event inside the main image
axes with data coordinates (x, y), writing row = int(y+0.5) and
col = int(x+0.5): if (row, col) differs from the last-drawn cell and is
within the image bounds, `move_cb` sets the horizontal profile line
y-data to `imdata[row, :]`, the vertical profile line x-data to
`imdata[:, col]`, and records (row, col) as the last-drawn cell; if the
cell is out of bounds or equal to the last-drawn cell no line data is
updated; an inactive widget is left entirely unchanged. -/
theorem move_cb_profile_update (s : CrossSection) (ev : MotionEvent)
    (x y : ℚ) (r c : Int)
    (hax : ev.inMainAxes = true) (hx : ev.xdata = some x)
    (hy : ev.ydata = some y)
    (hr : r = pyInt (y + 1 / 2)) (hc : c = pyInt (x + 1 / 2)) :
    (s.active = false → s.move_cb ev = s) ∧
    (s.active = true → (some r ≠ s.row ∨ some c ≠ s.col) →
      0 ≤ c → c < (s.imdata.shape.2 : Int) →
      0 ≤ r → r < (s.imdata.shape.1 : Int) →
      (s.move_cb ev).ln_h.ydata = s.imdata.rowAt r.toNat ∧
      (s.move_cb ev).ln_v.xdata = s.imdata.colAt c.toNat ∧
      (s.move_cb ev).row = some r ∧
      (s.move_cb ev).col = some c) ∧
    (s.active = true →
      (¬(some r ≠ s.row ∨ some c ≠ s.col) ∨
        ¬(0 ≤ c ∧ c < (s.imdata.shape.2 : Int) ∧
          0 ≤ r ∧ r < (s.imdata.shape.1 : Int))) →
      (s.move_cb ev).ln_h.ydata = s.ln_h.ydata ∧
      (s.move_cb ev).ln_h.xdata = s.ln_h.xdata ∧
      (s.move_cb ev).ln_v.xdata = s.ln_v.xdata ∧
      (s.move_cb ev).ln_v.ydata = s.ln_v.ydata ∧
      (s.move_cb ev).row = s.row ∧
      (s.move_cb ev).col = s.col) := by
  subst hr
  subst hc
  refine ⟨?_, ?_, ?_⟩
  · intro hact
    simp [CrossSection.move_cb, hact]
  · intro hact hdiff hc0 hcn hr0 hrn
    rw [CrossSection.move_cb]
    simp only [hact, hax, hx, hy, Bool.not_true]
    rw [if_neg (by simp), if_neg (by simp)]
    rw [if_pos (by simpa using hdiff)]
    rw [if_pos (by exact ⟨hc0, hcn, hr0, hrn⟩)]
    simp
  · intro hact hfail
    rw [CrossSection.move_cb]
    simp only [hact, hax, hx, hy, Bool.not_true]
    rw [if_neg (by simp), if_neg (by simp)]
    rcases hfail with hsame | hoob
    · rw [if_neg (by simpa using hsame)]
      simp
    · by_cases hdiff :
        some (pyInt (y + 1 / 2)) ≠ s.row ∨ some (pyInt (x + 1 / 2)) ≠ s.col
      · rw [if_pos (by simpa using hdiff)]
        rw [if_neg (by simpa using hoob)]
        simp
      · rw [if_neg (by simpa using hdiff)]
        simp

/-- Witness for the amended C1 at the active base state and the (0, 0)
event: row 0 of the 2×2 image lands in the horizontal line y-data and
column 0 in the vertical line x-data. -/
theorem move_cb_profile_update_witness :
    (csBase.move_cb evCenter).ln_h.ydata = csBase.imdata.rowAt (0 : Int).toNat ∧
    (csBase.move_cb evCenter).ln_v.xdata = csBase.imdata.colAt (0 : Int).toNat ∧
    (csBase.move_cb evCenter).row = some 0 ∧
    (csBase.move_cb evCenter).col = some 0 := by
  have h := (move_cb_profile_update csBase evCenter 0 0 0 0 rfl rfl rfl
      (by norm_num [pyInt]) (by norm_num [pyInt])).2.1
    rfl (Or.inl (by decide)) (by decide) (by decide) (by decide) (by decide)
  exact h

/-- A Python object displayed by `RecursiveTreeWidget`: a dict (entries
as key/value pairs, keys already rendered with `unicode(k)`), a list, or
any other object carried as its `unicode(obj)` rendering. -/
inductive PyObj where
  | dict (entries : List (String × PyObj))
  | list (elems : List PyObj)
  | other (repr : String)

/-- A `QTreeWidgetItem` as `fill_item` builds it: its column-0 text and
its children. -/
structure TreeNode where
  text : String
  children : List TreeNode

/-- Stable insertion of a key/value pair into a key-sorted pair list. -/
def insertByKey (p : String × PyObj) :
    List (String × PyObj) → List (String × PyObj)
  | [] => [p]
  | q :: qs => if p.1 ≤ q.1 then p :: q :: qs else q :: insertByKey p qs

/-- Python `sorted` on the key/value pairs of a dict: sorts ascending by
key (dict keys are distinct, so the values are never compared). -/
def sortByKey : List (String × PyObj) → List (String × PyObj)
  | [] => []
  | p :: ps => insertByKey p (sortByKey ps)

theorem mem_insertByKey {p q : String × PyObj} :
    ∀ {l : List (String × PyObj)}, q ∈ insertByKey p l → q = p ∨ q ∈ l := by
  intro l
  induction l with
  | nil =>
      intro h
      rw [insertByKey] at h
      exact Or.inl (List.mem_singleton.mp h)
  | cons a as ih =>
      intro h
      rw [insertByKey] at h
      by_cases hle : p.1 ≤ a.1
      · rw [if_pos hle] at h
        rcases List.mem_cons.mp h with h1 | h1
        · exact Or.inl h1
        · exact Or.inr h1
      · rw [if_neg hle] at h
        rcases List.mem_cons.mp h with h1 | h1
        · exact Or.inr (h1 ▸ List.mem_cons_self a as)
        · rcases ih h1 with h2 | h2
          · exact Or.inl h2
          · exact Or.inr (List.mem_cons_of_mem a h2)

theorem mem_sortByKey {q : String × PyObj} :
    ∀ {l : List (String × PyObj)}, q ∈ sortByKey l → q ∈ l := by
  intro l
  induction l with
  | nil => intro h; rw [sortByKey] at h; cases h
  | cons a as ih =>
      intro h
      rw [sortByKey] at h
      rcases mem_insertByKey h with h1 | h1
      · exact h1 ▸ List.mem_cons_self a as
      · exact List.mem_cons_of_mem a (ih h1)

theorem sizeOf_snd_lt_of_mem_sortByKey {p : String × PyObj}
    {l : List (String × PyObj)} (h : p ∈ sortByKey l) :
    sizeOf p.2 < sizeOf l := by
  have h1 := List.sizeOf_lt_of_mem (mem_sortByKey h)
  obtain ⟨a, b⟩ := p
  simp only [Prod.mk.sizeOf_spec] at h1
  simp only []
  omega

/-- Source method `RecursiveTreeWidget.fill_item` from `displaydict.py`,
as the list
of children it adds beneath `node`: a dict contributes one child per
key in sorted key order, labelled by the key and recursively filled
with the value; a list contributes one child per element in order,
labelled `[dict]`/`[list]` for nested containers (recursively filled)
and by the element rendering otherwise; any other object contributes
a single leaf labelled by `node_name` when given, else the object. -/
def fill_item (obj : PyObj) (node_name : Option String) : List TreeNode :=
  match obj with
  | .dict entries =>
      (sortByKey entries).attach.map
        (fun kv => { text := kv.1.1, children := fill_item kv.1.2 none })
  | .list elems =>
      elems.attach.map
        (fun v =>
          match hv : v.1 with
          | .dict entries2 =>
              { text := "[dict]",
                children := fill_item (PyObj.dict entries2) none }
          | .list elems2 =>
              { text := "[list]",
                children := fill_item (PyObj.list elems2) none }
          | .other sv => { text := sv, children := [] })
  | .other s => [{ text := node_name.getD s, children := [] }]
termination_by sizeOf obj
decreasing_by
  · have h1 := sizeOf_snd_lt_of_mem_sortByKey kv.2
    simp only [PyObj.dict.sizeOf_spec]
    omega
  · have h1 := List.sizeOf_lt_of_mem v.2
    rw [hv] at h1
    simp only [PyObj.list.sizeOf_spec, PyObj.dict.sizeOf_spec] at h1 ⊢
    omega
  · have h1 := List.sizeOf_lt_of_mem v.2
    rw [hv] at h1
    simp only [PyObj.list.sizeOf_spec] at h1 ⊢
    omega

/-- Source method `RecursiveTreeWidget.fill_widget`: clears the tree and
fills it from
`obj` at the invisible root; the previous contents are discarded. -/
def fill_widget (obj : PyObj) (_current : List TreeNode) : List TreeNode :=
  fill_item obj none

theorem pairwise_insertByKey (p : String × PyObj) :
    ∀ {l : List (String × PyObj)},
      l.Pairwise (fun a b => a.1 ≤ b.1) →
      (insertByKey p l).Pairwise (fun a b => a.1 ≤ b.1) := by
  intro l
  induction l with
  | nil => intro _; simp [insertByKey]
  | cons a as ih =>
      intro h
      rcases List.pairwise_cons.mp h with ⟨ha, has⟩
      rw [insertByKey]
      by_cases hle : p.1 ≤ a.1
      · rw [if_pos hle]
        refine List.pairwise_cons.mpr ⟨?_, h⟩
        intro b hb
        rcases List.mem_cons.mp hb with h1 | h1
        · exact h1 ▸ hle
        · exact le_trans hle (ha b h1)
      · rw [if_neg hle]
        refine List.pairwise_cons.mpr ⟨?_, ih has⟩
        intro b hb
        rcases mem_insertByKey hb with h1 | h1
        · exact h1 ▸ le_of_not_le hle
        · exact ha b h1

theorem pairwise_sortByKey :
    ∀ (l : List (String × PyObj)),
      (sortByKey l).Pairwise (fun a b => a.1 ≤ b.1) := by
  intro l
  induction l with
  | nil => simp [sortByKey]
  | cons a as ih => exact pairwise_insertByKey a ih

theorem perm_insertByKey (p : String × PyObj) :
    ∀ (l : List (String × PyObj)), (insertByKey p l).Perm (p :: l) := by
  intro l
  induction l with
  | nil => rw [insertByKey]
  | cons a as ih =>
      rw [insertByKey]
      by_cases hle : p.1 ≤ a.1
      · rw [if_pos hle]
      · rw [if_neg hle]
        exact List.Perm.trans (List.Perm.cons a ih) (List.Perm.swap p a as)

theorem perm_sortByKey :
    ∀ (l : List (String × PyObj)), (sortByKey l).Perm l := by
  intro l
  induction l with
  | nil => rw [sortByKey]
  | cons a as ih =>
      rw [sortByKey]
      exact List.Perm.trans (perm_insertByKey a (sortByKey as))
        (List.Perm.cons a ih)

/-- The child node `fill_item` builds for one element of a Python list:
nested dicts and lists are labelled `[dict]`/`[list]` and recursively
filled, anything else becomes a leaf with the element rendering. -/
def listElemChild (v : PyObj) : TreeNode :=
  match v with
  | .dict entries2 =>
      { text := "[dict]", children := fill_item (PyObj.dict entries2) none }
  | .list elems2 =>
      { text := "[list]", children := fill_item (PyObj.list elems2) none }
  | .other sv => { text := sv, children := [] }

theorem fill_item_dict_eq (entries : List (String × PyObj))
    (nm : Option String) :
    fill_item (PyObj.dict entries) nm =
      (sortByKey entries).map
        (fun p => { text := p.1, children := fill_item p.2 none }) := by
  rw [fill_item]
  exact List.attach_map_val (sortByKey entries)
    (fun p => ({ text := p.1, children := fill_item p.2 none } : TreeNode))

theorem fill_item_list_eq (elems : List PyObj) (nm : Option String) :
    fill_item (PyObj.list elems) nm = elems.map listElemChild := by
  rw [fill_item]
  have h : ∀ v ∈ elems.attach,
      (match hv : v.1 with
        | .dict entries2 =>
            ({ text := "[dict]",
               children := fill_item (PyObj.dict entries2) none } : TreeNode)
        | .list elems2 =>
            { text := "[list]", children := fill_item (PyObj.list elems2) none }
        | .other sv => { text := sv, children := [] }) = listElemChild v.1 := by
    intro v _
    rcases v with ⟨v, hv⟩
    cases v <;> rfl
  rw [List.map_congr_left h]
  exact List.attach_map_val elems listElemChild

/-- Claim C6: `fill_item node obj` adds, for a dict, one child per key
in ascending sorted key order, each labelled with the key and
recursively filled with the value; for a list, one child per element in
list order, labelled `[dict]`/`[list]` for nested containers
(recursively filled) and with the element rendering otherwise; for
any other object a single child labelled with the object (or with
`node_name` when given). -/
theorem fill_item_spec (nm : Option String) :
    (∀ entries : List (String × PyObj),
      fill_item (PyObj.dict entries) nm =
        (sortByKey entries).map
          (fun p => { text := p.1, children := fill_item p.2 none }) ∧
      (sortByKey entries).Perm entries ∧
      (fill_item (PyObj.dict entries) nm).length = entries.length ∧
      (fill_item (PyObj.dict entries) nm).Pairwise
        (fun a b => a.text ≤ b.text)) ∧
    (∀ elems : List PyObj,
      fill_item (PyObj.list elems) nm = elems.map listElemChild) ∧
    (∀ s : String,
      fill_item (PyObj.other s) nm = [{ text := nm.getD s, children := [] }]) := by
  refine ⟨?_, fun elems => fill_item_list_eq elems nm, fun s => by rw [fill_item]⟩
  intro entries
  refine ⟨fill_item_dict_eq entries nm, perm_sortByKey entries, ?_, ?_⟩
  · rw [fill_item_dict_eq, List.length_map,
      List.Perm.length_eq (perm_sortByKey entries)]
  · rw [fill_item_dict_eq]
    exact List.Pairwise.map _ (fun a b hab => hab) (pairwise_sortByKey entries)

/-- Claim C10: `fill_widget obj` clears the tree before refilling, so
the result depends only on `obj`, and filling twice with the same `obj`
equals filling once. -/
theorem fill_widget_depends_only_on_obj (obj : PyObj)
    (t1 t2 : List TreeNode) :
    fill_widget obj t1 = fill_widget obj t2 ∧
    fill_widget obj (fill_widget obj t1) = fill_widget obj t1 :=
  ⟨rfl, rfl⟩

/-- A matplotlib `Line2D` on the 1D-stack axes: `replot` rewrites its
x-data, y-data and color.  The color is the value the stored
`ScalarMappable` returns for `idx / len(lines)`. -/
structure MplLine where
  xdata : List ℚ
  ydata : List ℚ
  color : ℚ

/-- Default line used with `List.getD` when stating pointwise facts. -/
def lnDefault : MplLine := { xdata := [], ydata := [], color := 0 }

/-- The state of `OneDimStackViewer` from `plot1D.py`: stored
coordinate lists, offsets, autoscale flag, the `ScalarMappable`
(`self._rgba.to_rgba`, abstracted as a function on ℚ), the line artists
of the axes, and the axes limits. -/
structure OneDimStackViewer where
  x : List (List ℚ)
  y : List (List ℚ)
  horz_offset : ℚ
  vert_offset : ℚ
  autoscale : Bool
  rgba : ℚ → ℚ
  lines : List MplLine
  xlim : ℚ × ℚ
  ylim : ℚ × ℚ

/-- Source method `OneDimStackViewer.add_line`: appends to the stored
coordinate
lists; no artist is added to the axes. -/
def OneDimStackViewer.add_line (s : OneDimStackViewer)
    (nx ny : List ℚ) : OneDimStackViewer :=
  { s with x := s.x ++ [nx], y := s.y ++ [ny] }

/-- The loop body of `replot`: line `idx` gets x-data
`self._x[idx] + idx * self._horz_offset` (numpy elementwise shift),
y-data likewise, and color `to_rgba(idx / len(lines))` (Python 3-style
true division, active via `from __future__ import division`). -/
def replotLines (s : OneDimStackViewer) : List MplLine :=
  s.lines.mapIdx (fun idx _ln =>
    { xdata := (s.x.getD idx []).map (fun t => t + (idx : ℚ) * s.horz_offset),
      ydata := (s.y.getD idx []).map (fun t => t + (idx : ℚ) * s.vert_offset),
      color := s.rgba ((idx : ℚ) / (s.lines.length : ℚ)) })

/-- The per-line `np.min` reductions of `find_range` (`min_x[idx] =
np.min(lines[idx].get_xdata())` and friends): `none` as soon as one
line data is empty. -/
def lineMins (f : MplLine → List ℚ) : List MplLine → Option (List ℚ)
  | [] => some []
  | ln :: rest =>
      match npMin (f ln), lineMins f rest with
      | some m, some ms => some (m :: ms)
      | _, _ => none

/-- The per-line `np.max` reductions of `find_range`. -/
def lineMaxs (f : MplLine → List ℚ) : List MplLine → Option (List ℚ)
  | [] => some []
  | ln :: rest =>
      match npMax (f ln), lineMaxs f rest with
      | some m, some ms => some (m :: ms)
      | _, _ => none

/-- Source method `OneDimStackViewer.find_range` on the (already
replotted) line
artists: `(np.min(min_x), np.max(max_x), np.min(min_y), np.max(max_y))`;
`none` models the `ValueError` numpy raises when there are no lines or
a line with empty data. -/
def find_range (lines : List MplLine) : Option (ℚ × ℚ × ℚ × ℚ) :=
  Option.bind (lineMins (fun ln => ln.xdata) lines) (fun mxs =>
  Option.bind (lineMaxs (fun ln => ln.xdata) lines) (fun maxxs =>
  Option.bind (lineMins (fun ln => ln.ydata) lines) (fun mys =>
  Option.bind (lineMaxs (fun ln => ln.ydata) lines) (fun maxys =>
  Option.bind (npMin mxs) (fun a =>
  Option.bind (npMax maxxs) (fun b =>
  Option.bind (npMin mys) (fun c =>
  Option.bind (npMax maxys) (fun d =>
  some (a, b, c, d)))))))))

/-- Source method `OneDimStackViewer.replot`: rewrites every line artist
data and
color from the stored lists and offsets, then, when autoscaling is on,
sets the axes limits from `find_range`. -/
def OneDimStackViewer.replot (s : OneDimStackViewer) :
    Except String OneDimStackViewer :=
  let lines2 := replotLines s
  let s2 : OneDimStackViewer := { s with lines := lines2 }
  if s.autoscale then
    match find_range lines2 with
    | some (mnx, mxx, mny, mxy) =>
        .ok { s2 with xlim := (mnx, mxx), ylim := (mny, mxy) }
    | none => .error ("zero-size array to reduction operation")
  else
    .ok s2

theorem npMin_spec {α : Type} [LinearOrder α] {l : List α} {a : α}
    (h : npMin l = some a) : a ∈ l ∧ ∀ v ∈ l, a ≤ v := by
  rcases l with _ | ⟨b, bs⟩
  · cases h
  · rw [npMin] at h
    have ha : a = bs.foldl min b := (Option.some.injEq _ _).mp h.symm
    subst ha
    refine ⟨?_, ?_⟩
    · rcases foldl_min_mem bs b with h1 | h1
      · rw [h1]; exact List.mem_cons_self b bs
      · exact List.mem_cons_of_mem b h1
    · intro v hv
      rcases List.mem_cons.mp hv with h1 | h1
      · exact h1 ▸ foldl_min_le_init bs b
      · exact foldl_min_le_mem bs b v h1

theorem npMax_spec {α : Type} [LinearOrder α] {l : List α} {a : α}
    (h : npMax l = some a) : a ∈ l ∧ ∀ v ∈ l, v ≤ a := by
  rcases l with _ | ⟨b, bs⟩
  · cases h
  · rw [npMax] at h
    have ha : a = bs.foldl max b := (Option.some.injEq _ _).mp h.symm
    subst ha
    refine ⟨?_, ?_⟩
    · rcases foldl_max_mem bs b with h1 | h1
      · rw [h1]; exact List.mem_cons_self b bs
      · exact List.mem_cons_of_mem b h1
    · intro v hv
      rcases List.mem_cons.mp hv with h1 | h1
      · exact h1 ▸ foldl_max_init_le bs b
      · exact foldl_max_mem_le bs b v h1

theorem lineMins_mem {f : MplLine → List ℚ} :
    ∀ {lines : List MplLine} {ms : List ℚ}, lineMins f lines = some ms →
      ∀ m ∈ ms, ∃ ln, ln ∈ lines ∧ npMin (f ln) = some m := by
  intro lines
  induction lines with
  | nil =>
      intro ms h m hm
      rw [lineMins] at h
      cases (Option.some.injEq _ _).mp h
      cases hm
  | cons ln rest ih =>
      intro ms h m hm
      rw [lineMins] at h
      rcases h1 : npMin (f ln) with _ | m1 <;> rw [h1] at h
      · cases h
      · rcases h2 : lineMins f rest with _ | ms1 <;> rw [h2] at h
        · cases h
        · cases (Option.some.injEq _ _).mp h
          rcases List.mem_cons.mp hm with h3 | h3
          · exact ⟨ln, List.mem_cons_self ln rest, h3 ▸ h1⟩
          · obtain ⟨ln2, hln2, hm2⟩ := ih h2 m h3
            exact ⟨ln2, List.mem_cons_of_mem ln hln2, hm2⟩

theorem lineMins_cover {f : MplLine → List ℚ} :
    ∀ {lines : List MplLine} {ms : List ℚ}, lineMins f lines = some ms →
      ∀ ln ∈ lines, ∃ m ∈ ms, npMin (f ln) = some m := by
  intro lines
  induction lines with
  | nil => intro ms _ ln hln; cases hln
  | cons ln0 rest ih =>
      intro ms h ln hln
      rw [lineMins] at h
      rcases h1 : npMin (f ln0) with _ | m1 <;> rw [h1] at h
      · cases h
      · rcases h2 : lineMins f rest with _ | ms1 <;> rw [h2] at h
        · cases h
        · cases (Option.some.injEq _ _).mp h
          rcases List.mem_cons.mp hln with h3 | h3
          · exact ⟨m1, List.mem_cons_self m1 ms1, h3 ▸ h1⟩
          · obtain ⟨m, hm, hm2⟩ := ih h2 ln h3
            exact ⟨m, List.mem_cons_of_mem m1 hm, hm2⟩

theorem lineMaxs_mem {f : MplLine → List ℚ} :
    ∀ {lines : List MplLine} {ms : List ℚ}, lineMaxs f lines = some ms →
      ∀ m ∈ ms, ∃ ln, ln ∈ lines ∧ npMax (f ln) = some m := by
  intro lines
  induction lines with
  | nil =>
      intro ms h m hm
      rw [lineMaxs] at h
      cases (Option.some.injEq _ _).mp h
      cases hm
  | cons ln rest ih =>
      intro ms h m hm
      rw [lineMaxs] at h
      rcases h1 : npMax (f ln) with _ | m1 <;> rw [h1] at h
      · cases h
      · rcases h2 : lineMaxs f rest with _ | ms1 <;> rw [h2] at h
        · cases h
        · cases (Option.some.injEq _ _).mp h
          rcases List.mem_cons.mp hm with h3 | h3
          · exact ⟨ln, List.mem_cons_self ln rest, h3 ▸ h1⟩
          · obtain ⟨ln2, hln2, hm2⟩ := ih h2 m h3
            exact ⟨ln2, List.mem_cons_of_mem ln hln2, hm2⟩

theorem lineMaxs_cover {f : MplLine → List ℚ} :
    ∀ {lines : List MplLine} {ms : List ℚ}, lineMaxs f lines = some ms →
      ∀ ln ∈ lines, ∃ m ∈ ms, npMax (f ln) = some m := by
  intro lines
  induction lines with
  | nil => intro ms _ ln hln; cases hln
  | cons ln0 rest ih =>
      intro ms h ln hln
      rw [lineMaxs] at h
      rcases h1 : npMax (f ln0) with _ | m1 <;> rw [h1] at h
      · cases h
      · rcases h2 : lineMaxs f rest with _ | ms1 <;> rw [h2] at h
        · cases h
        · cases (Option.some.injEq _ _).mp h
          rcases List.mem_cons.mp hln with h3 | h3
          · exact ⟨m1, List.mem_cons_self m1 ms1, h3 ▸ h1⟩
          · obtain ⟨m, hm, hm2⟩ := ih h2 ln h3
            exact ⟨m, List.mem_cons_of_mem m1 hm, hm2⟩

/-- The flattened x (or y) data of all lines. -/
def allData (f : MplLine → List ℚ) (lines : List MplLine) : List ℚ :=
  (lines.map f).flatten

theorem globalMin_spec {f : MplLine → List ℚ} {lines : List MplLine}
    {ms : List ℚ} {a : ℚ} (h1 : lineMins f lines = some ms)
    (h2 : npMin ms = some a) :
    a ∈ allData f lines ∧ ∀ v ∈ allData f lines, a ≤ v := by
  obtain ⟨ham, halb⟩ := npMin_spec h2
  constructor
  · obtain ⟨ln, hln, hm⟩ := lineMins_mem h1 a ham
    exact List.mem_flatten.mpr ⟨f ln, List.mem_map_of_mem f hln,
      (npMin_spec hm).1⟩
  · intro v hv
    obtain ⟨lx, hlx, hvlx⟩ := List.mem_flatten.mp hv
    obtain ⟨ln, hln, hfl⟩ := List.mem_map.mp hlx
    obtain ⟨m, hms, hm⟩ := lineMins_cover h1 ln hln
    exact le_trans (halb m hms) ((npMin_spec hm).2 v (hfl ▸ hvlx))

theorem globalMax_spec {f : MplLine → List ℚ} {lines : List MplLine}
    {ms : List ℚ} {a : ℚ} (h1 : lineMaxs f lines = some ms)
    (h2 : npMax ms = some a) :
    a ∈ allData f lines ∧ ∀ v ∈ allData f lines, v ≤ a := by
  obtain ⟨ham, hub⟩ := npMax_spec h2
  constructor
  · obtain ⟨ln, hln, hm⟩ := lineMaxs_mem h1 a ham
    exact List.mem_flatten.mpr ⟨f ln, List.mem_map_of_mem f hln,
      (npMax_spec hm).1⟩
  · intro v hv
    obtain ⟨lx, hlx, hvlx⟩ := List.mem_flatten.mp hv
    obtain ⟨ln, hln, hfl⟩ := List.mem_map.mp hlx
    obtain ⟨m, hms, hm⟩ := lineMaxs_cover h1 ln hln
    exact le_trans ((npMax_spec hm).2 v (hfl ▸ hvlx)) (hub m hms)

theorem find_range_spec {lines : List MplLine} {a b c d : ℚ}
    (h : find_range lines = some (a, b, c, d)) :
    (a ∈ allData (fun ln => ln.xdata) lines ∧
      ∀ v ∈ allData (fun ln => ln.xdata) lines, a ≤ v) ∧
    (b ∈ allData (fun ln => ln.xdata) lines ∧
      ∀ v ∈ allData (fun ln => ln.xdata) lines, v ≤ b) ∧
    (c ∈ allData (fun ln => ln.ydata) lines ∧
      ∀ v ∈ allData (fun ln => ln.ydata) lines, c ≤ v) ∧
    (d ∈ allData (fun ln => ln.ydata) lines ∧
      ∀ v ∈ allData (fun ln => ln.ydata) lines, v ≤ d) := by
  rw [find_range] at h
  obtain ⟨mxs, h1, h⟩ := Option.bind_eq_some.mp h
  obtain ⟨maxxs, h2, h⟩ := Option.bind_eq_some.mp h
  obtain ⟨mys, h3, h⟩ := Option.bind_eq_some.mp h
  obtain ⟨maxys, h4, h⟩ := Option.bind_eq_some.mp h
  obtain ⟨a1, h5, h⟩ := Option.bind_eq_some.mp h
  obtain ⟨b1, h6, h⟩ := Option.bind_eq_some.mp h
  obtain ⟨c1, h7, h⟩ := Option.bind_eq_some.mp h
  obtain ⟨d1, h8, h⟩ := Option.bind_eq_some.mp h
  obtain ⟨ha, hb, hc, hd⟩ : a1 = a ∧ b1 = b ∧ c1 = c ∧ d1 = d := by
    have hq : ((a1, b1, c1, d1) : ℚ × ℚ × ℚ × ℚ) = (a, b, c, d) :=
      (Option.some.injEq _ _).mp h
    exact ⟨congrArg Prod.fst hq, congrArg (fun p => p.2.1) hq,
      congrArg (fun p => p.2.2.1) hq, congrArg (fun p => p.2.2.2) hq⟩
  subst ha; subst hb; subst hc; subst hd
  exact ⟨globalMin_spec h1 h5, globalMax_spec h2 h6,
    globalMin_spec h3 h7, globalMax_spec h4 h8⟩

theorem getD_eq_get {α : Type} (l : List α) (d : α) :
    ∀ (i : Nat) (h : i < l.length), l.getD i d = l.get ⟨i, h⟩ := by
  induction l with
  | nil => intro i h; exact absurd h (Nat.not_lt_zero i)
  | cons a as ih =>
      intro i h
      cases i with
      | zero => rfl
      | succ n => exact ih n (Nat.lt_of_succ_lt_succ h)

theorem replotLines_length (s : OneDimStackViewer) :
    (replotLines s).length = s.lines.length := by
  unfold replotLines
  exact List.length_mapIdx

theorem replotLines_getD (s : OneDimStackViewer) (i : Nat)
    (hi : i < s.lines.length) :
    (replotLines s).getD i lnDefault =
      { xdata := (s.x.getD i []).map (fun t => t + (i : ℚ) * s.horz_offset),
        ydata := (s.y.getD i []).map (fun t => t + (i : ℚ) * s.vert_offset),
        color := s.rgba ((i : ℚ) / (s.lines.length : ℚ)) } := by
  have hi2 : i < (replotLines s).length := by
    rw [replotLines_length]; exact hi
  rw [getD_eq_get (replotLines s) lnDefault i hi2]
  unfold replotLines at hi2 ⊢
  exact List.get_mapIdx s.lines _ i hi hi2

/-- Claim C7: after `replot`, every line artist `idx` carries the stored
x-coordinates at `idx` shifted by `idx` times the horizontal offset, the
stored y-coordinates shifted by `idx` times the vertical offset, and the
color the stored colormap yields at `idx / len(lines)`; when autoscaling
is enabled the axes limits are the global minima and maxima of all lines' x
and y data. -/
theorem replot_spec (s s2 : OneDimStackViewer)
    (hok : s.replot = Except.ok s2) :
    s2.lines.length = s.lines.length ∧
    (∀ i, i < s.lines.length →
      (s2.lines.getD i lnDefault).xdata =
        (s.x.getD i []).map (fun t => t + (i : ℚ) * s.horz_offset) ∧
      (s2.lines.getD i lnDefault).ydata =
        (s.y.getD i []).map (fun t => t + (i : ℚ) * s.vert_offset) ∧
      (s2.lines.getD i lnDefault).color =
        s.rgba ((i : ℚ) / (s.lines.length : ℚ))) ∧
    (s.autoscale = true →
      (s2.xlim.1 ∈ allData (fun ln => ln.xdata) s2.lines ∧
        ∀ v ∈ allData (fun ln => ln.xdata) s2.lines, s2.xlim.1 ≤ v) ∧
      (s2.xlim.2 ∈ allData (fun ln => ln.xdata) s2.lines ∧
        ∀ v ∈ allData (fun ln => ln.xdata) s2.lines, v ≤ s2.xlim.2) ∧
      (s2.ylim.1 ∈ allData (fun ln => ln.ydata) s2.lines ∧
        ∀ v ∈ allData (fun ln => ln.ydata) s2.lines, s2.ylim.1 ≤ v) ∧
      (s2.ylim.2 ∈ allData (fun ln => ln.ydata) s2.lines ∧
        ∀ v ∈ allData (fun ln => ln.ydata) s2.lines, v ≤ s2.ylim.2)) := by
  cases hauto : s.autoscale with
  | false =>
      rw [OneDimStackViewer.replot] at hok
      simp only [hauto, Bool.false_eq_true, if_false] at hok
      injection hok with hs2
      subst hs2
      refine ⟨replotLines_length s, ?_, ?_⟩
      · intro i hi
        rw [replotLines_getD s i hi]
        exact ⟨rfl, rfl, rfl⟩
      · intro hc
        cases hc
  | true =>
      rw [OneDimStackViewer.replot] at hok
      simp only [hauto, if_true] at hok
      rcases hfr : find_range (replotLines s) with _ | q
      · rw [hfr] at hok
        cases hok
      · obtain ⟨mnx, mxx, mny, mxy⟩ := q
        rw [hfr] at hok
        injection hok with hs2
        subst hs2
        obtain ⟨hx1, hx2, hy1, hy2⟩ := find_range_spec hfr
        refine ⟨replotLines_length s, ?_, ?_⟩
        · intro i hi
          rw [replotLines_getD s i hi]
          exact ⟨rfl, rfl, rfl⟩
        · intro _
          exact ⟨hx1, hx2, hy1, hy2⟩

/-- Example viewer with one line artist, matching stored data, and
autoscaling enabled, used for the C7/C8 witnesses. -/
def svEx : OneDimStackViewer :=
  { x := [[0]]
    y := [[0]]
    horz_offset := 0
    vert_offset := 0
    autoscale := true
    rgba := fun q => q
    lines := [{ xdata := [0], ydata := [0], color := 1 }]
    xlim := (5, 5)
    ylim := (5, 5) }

/-- The state `replot` produces on `svEx`. -/
def svEx2 : OneDimStackViewer :=
  match svEx.replot with
  | .ok t => t
  | .error _ => svEx

/-- Witness for C7 at the one-line example viewer. -/
theorem replot_spec_witness :
    svEx.replot = Except.ok svEx2 ∧
    svEx2.lines.length = svEx.lines.length ∧
    (svEx2.xlim.1 ∈ allData (fun ln => ln.xdata) svEx2.lines ∧
      ∀ v ∈ allData (fun ln => ln.xdata) svEx2.lines, svEx2.xlim.1 ≤ v) := by
  have hok : svEx.replot = Except.ok svEx2 := rfl
  have h := replot_spec svEx svEx2 hok
  exact ⟨hok, h.1, (h.2.2 rfl).1⟩

theorem mapIdx_congr {α β : Type} (l : List α) (f g : Nat → α → β)
    (h : ∀ i a, i < l.length → f i a = g i a) : l.mapIdx f = l.mapIdx g := by
  apply List.ext_get
  · rw [List.length_mapIdx, List.length_mapIdx]
  · intro n h1 h2
    have hn : n < l.length := by rw [List.length_mapIdx] at h1; exact h1
    rw [List.get_mapIdx l f n hn h1, List.get_mapIdx l g n hn h2]
    exact h n (l.get ⟨n, hn⟩) hn

theorem getD_append_left {α : Type} (l1 l2 : List α) (d : α) :
    ∀ (i : Nat), i < l1.length → (l1 ++ l2).getD i d = l1.getD i d := by
  induction l1 with
  | nil => intro i h; exact absurd h (Nat.not_lt_zero i)
  | cons a as ih =>
      intro i h
      cases i with
      | zero => rfl
      | succ n => exact ih n (Nat.lt_of_succ_lt_succ h)

theorem replotLines_add_line (s : OneDimStackViewer) (nx ny : List ℚ)
    (hx : s.lines.length ≤ s.x.length) (hy : s.lines.length ≤ s.y.length) :
    replotLines (s.add_line nx ny) = replotLines s := by
  unfold replotLines OneDimStackViewer.add_line
  simp only []
  apply mapIdx_congr
  intro i a hi
  rw [getD_append_left s.x [nx] [] i (lt_of_lt_of_le hi hx),
    getD_append_left s.y [ny] [] i (lt_of_lt_of_le hi hy)]

/-- Claim C8: `add_line` appends to the stored coordinate lists but adds
no artist; `replot` iterates over the axes' line artists, so after
`add_line` a replot produces exactly the same line artists and axes
limits as a replot without the added data — the appended data is never
rendered as a new line. -/
theorem add_line_not_rendered (s : OneDimStackViewer) (nx ny : List ℚ)
    (hx : s.lines.length ≤ s.x.length) (hy : s.lines.length ≤ s.y.length) :
    (s.add_line nx ny).lines = s.lines ∧
    (s.add_line nx ny).x = s.x ++ [nx] ∧
    (s.add_line nx ny).y = s.y ++ [ny] ∧
    ((s.add_line nx ny).replot).map (fun t => t.lines) =
      (s.replot).map (fun t => t.lines) ∧
    ((s.add_line nx ny).replot).map (fun t => t.xlim) =
      (s.replot).map (fun t => t.xlim) ∧
    ((s.add_line nx ny).replot).map (fun t => t.ylim) =
      (s.replot).map (fun t => t.ylim) := by
  have hrl := replotLines_add_line s nx ny hx hy
  refine ⟨rfl, rfl, rfl, ?_⟩
  rw [OneDimStackViewer.replot, OneDimStackViewer.replot, hrl]
  simp only [OneDimStackViewer.add_line]
  cases hauto : s.autoscale with
  | false => exact ⟨rfl, rfl, rfl⟩
  | true =>
      simp only [if_true]
      rcases hfr : find_range (replotLines s) with _ | q
      · exact ⟨rfl, rfl, rfl⟩
      · obtain ⟨mnx, mxx, mny, mxy⟩ := q
        exact ⟨rfl, rfl, rfl⟩

/-- Witness for C8: adding a line's data to the example viewer leaves
the artist list unchanged and replot results agree. -/
theorem add_line_not_rendered_witness :
    (svEx.add_line [1] [1]).lines = svEx.lines ∧
    (svEx.add_line [1] [1]).x = svEx.x ++ [[1]] ∧
    ((svEx.add_line [1] [1]).replot).map (fun t => t.lines) =
      (svEx.replot).map (fun t => t.lines) := by
  have h := add_line_not_rendered svEx [1] [1] (by decide) (by decide)
  exact ⟨h.1, h.2.1, h.2.2.2.1⟩

end XrayVision
